import Mathlib

/-!
Verification of the auto_pdf_marker TOC pipeline.

The development embeds the core logic of the repository:

* `utils/vision_handler.py`, `extract_toc_from_image` (lines 80-106): the
  post-transport handling of the model response — emptiness check, JSON
  parse outcome, and response-shape normalization (bare array / recognized
  keys / first list-valued member fallback).
* `utils/pdf_handler.py`, `write_toc` (lines 53-75): per-entry defaulting
  (`level` → 1, `title` → "", `page` → 1), page-offset addition, the two
  sequential clamping conditionals, `set_toc`, and the save step.
* `app.py`, the page-processing loop (lines 193-224) and the post-loop
  branch on `all_entries` (lines 231-294).

JSON values are modelled by an inductive `Json`; Python dicts coming out of
`json.loads` are ordered association lists (insertion order is meaningful
for the fallback shape matcher).  Python exceptions raised by `write_toc`
(`AttributeError` on non-mappings, `TypeError` on non-numeric `page`
values) are modelled with `Except`.
-/

namespace AutoPdfMarker

/-- A JSON value as produced by `json.loads`.  Objects keep member order
(Python dicts preserve insertion order); keys are unique in parser output.
Python `bool` is a subtype of `int`, which matters for `+`. -/
inductive Json where
  | null
  | bool (b : Bool)
  | num (n : Int)
  | str (s : String)
  | arr (elems : List Json)
  | obj (members : List (String × Json))

/-- Python `dict` lookup (`data[key]` / `entry.get(key)`): the member whose
key matches. -/
def lookupKey : List (String × Json) → String → Option Json
  | [], _ => none
  | (k, v) :: rest, key => if k = key then some v else lookupKey rest key

/-- Whether a JSON value is a list (`isinstance(value, list)`). -/
def isArr : Json → Bool
  | Json.arr _ => true
  | _ => false

/-! ## Structure Extractor (`vision_handler.extract_toc_from_image`) -/

/-- The key probe order of `extract_toc_from_image` line 92:
`['toc', 'table_of_contents', 'entries', 'sections']`. -/
def recognizedKeys : List String := ["toc", "table_of_contents", "entries", "sections"]

/-- Lines 92-94: `for key in [...]: if key in data and
isinstance(data[key], list): return data[key]`. -/
def tryRecognizedKeys : List String → List (String × Json) → Option (List Json)
  | [], _ => none
  | key :: rest, members =>
    match lookupKey members key with
    | some (Json.arr xs) => some xs
    | _ => tryRecognizedKeys rest members

/-- Lines 96-98: `for value in data.values(): if isinstance(value, list):
return value` — the first list-valued member in member order. -/
def firstListValue : List (String × Json) → Option (List Json)
  | [] => none
  | (_, Json.arr xs) :: _ => some xs
  | _ :: rest => firstListValue rest

/-- Lines 87-100: response-shape normalization on the parsed JSON value.
`none` models the `return None` after the `logger.warning`. -/
def normalizeResponse (data : Json) : Option (List Json) :=
  match data with
  | Json.arr xs => some xs
  | Json.obj members =>
    match tryRecognizedKeys recognizedKeys members with
    | some xs => some xs
    | none => firstListValue members
  | _ => none

/-- Outcome of `json.loads(content)`: either a `JSONDecodeError` or a
parsed value. -/
inductive ParseOutcome where
  | invalid
  | parsed (data : Json)

/-- Lines 80-106 of `extract_toc_from_image`, after the transport call:
`content` is the message content (`None` or a string; `if not content`
catches both `None` and `""`), then the JSON parse outcome is dispatched —
`JSONDecodeError` is caught and yields `None`, a parsed value goes through
shape normalization.  Every branch returns; no exception escapes. -/
def extractFromResponse (content : Option String) (outcome : ParseOutcome) :
    Option (List Json) :=
  match content with
  | none => none
  | some s =>
    if s = "" then none
    else
      match outcome with
      | ParseOutcome.invalid => none
      | ParseOutcome.parsed data => normalizeResponse data

/-! ## Bookmark Writer (`pdf_handler.write_toc`) -/

/-- Line 57: `level = entry.get('level', 1)`. -/
def levelOf (members : List (String × Json)) : Json :=
  (lookupKey members "level").getD (Json.num 1)

/-- Line 58: `title = entry.get('title', '')`. -/
def titleOf (members : List (String × Json)) : Json :=
  (lookupKey members "title").getD (Json.str "")

/-- Line 59, the lookup part: `entry.get('page', 1)`. -/
def rawPage (members : List (String × Json)) : Json :=
  (lookupKey members "page").getD (Json.num 1)

/-- Lines 61-64: the two sequential clamping conditionals
`if page < 1: page = 1` then `if page > doc.page_count: page =
doc.page_count`. -/
def clampPage (pageCount : Int) (page : Int) : Int :=
  let page := if page < 1 then 1 else page
  if page > pageCount then pageCount else page

/-- Whether `value + page_offset` is defined in Python: `int` works,
`bool` is an `int` subtype (`True` is 1, `False` is 0); `None`, `str`,
`list`, `dict` raise `TypeError`. -/
def pageToInt : Json → Option Int
  | Json.num n => some n
  | Json.bool b => some (if b then 1 else 0)
  | _ => none

/-- Lines 56-65, one loop iteration: defaulting, offset addition, clamping,
the appended `[level, title, page]` item.  A non-mapping entry raises
`AttributeError` at `entry.get`; a `page` value that cannot be added to an
`int` raises `TypeError`. -/
def convertEntry (pageCount pageOffset : Int) (entry : Json) :
    Except String (Json × Json × Int) :=
  match entry with
  | Json.obj members =>
    match pageToInt (rawPage members) with
    | some p => Except.ok (levelOf members, titleOf members, clampPage pageCount (p + pageOffset))
    | none => Except.error "TypeError: unsupported operand type for +"
  | _ => Except.error "AttributeError: entry has no attribute get"

/-- Lines 55-65: the `fitz_toc` accumulation loop.  Entries are processed
in input order; the first raising entry aborts the whole call. -/
def buildFitzToc (pageCount pageOffset : Int) : List Json → Except String (List (Json × Json × Int))
  | [] => Except.ok []
  | entry :: rest =>
    match convertEntry pageCount pageOffset entry with
    | Except.ok item =>
      match buildFitzToc pageCount pageOffset rest with
      | Except.ok items => Except.ok (item :: items)
      | Except.error e => Except.error e
    | Except.error e => Except.error e

/-- The document state the Bookmark Writer mutates: `doc.page_count` and the
committed TOC (`doc.set_toc(fitz_toc)` replaces the whole prior tree). -/
structure Doc where
  pageCount : Int
  toc : List (Json × Json × Int)

/-- `write_toc` (lines 53-75): build `fitz_toc`, commit it with `set_toc`
(replacing any prior tree), then save/serialize.  `Except.ok` models a run
where `set_toc` and the save step complete without error. -/
def write_toc (doc : Doc) (toc : List Json) (pageOffset : Int) : Except String Doc :=
  match buildFitzToc doc.pageCount pageOffset toc with
  | Except.ok fitzToc => Except.ok { doc with toc := fitzToc }
  | Except.error e => Except.error e

/-! ## Page-processing loop and post-loop branch (`app.py`) -/

/-- Lines 193-224 of `app.py`, reduced to the accumulation of
`all_entries`: one `Option (List Json)` per processed page, in page order
(`extract_toc_from_image` returns `None` on failure).  `if entries:
all_entries.extend(entries)` extends only on a truthy (non-`None`,
non-empty) result. -/
def accumulateEntries (results : List (Option (List Json))) : List Json :=
  results.foldl
    (fun acc r =>
      match r with
      | some entries => if entries.isEmpty then acc else acc ++ entries
      | none => acc)
    []

/-- Outcome of the post-loop branch: either the TOC was written into the
document, or nothing was extracted and the document is returned untouched
(the `st.error("No bookmarks were extracted...")` path). -/
inductive RunResult where
  | written (doc : Doc)
  | nothingExtracted (doc : Doc)

/-- Lines 231-294 of `app.py`: `if all_entries:` call `write_toc`
(offset applied there), otherwise report "No bookmarks were extracted" and
leave the document unmodified — `write_toc` is not invoked at all. -/
def finishRun (doc : Doc) (allEntries : List Json) (pageOffset : Int) :
    Except String RunResult :=
  if allEntries.isEmpty then Except.ok (RunResult.nothingExtracted doc)
  else
    match write_toc doc allEntries pageOffset with
    | Except.ok newDoc => Except.ok (RunResult.written newDoc)
    | Except.error e => Except.error e

/-- The item `write_toc` emits for an entry whose adjusted page needs no
clamping (used to state the exact-emission claims). -/
def emitUnclamped (pageOffset : Int) (entry : Json) : Json × Json × Int :=
  match entry with
  | Json.obj members =>
    (levelOf members, titleOf members, (pageToInt (rawPage members)).getD 1 + pageOffset)
  | _ => (Json.num 1, Json.str "", 1)

/-! ## Helper lemmas -/

theorem clampPage_bounds (pageCount page : Int) (hpc : 1 ≤ pageCount) :
    1 ≤ clampPage pageCount page ∧ clampPage pageCount page ≤ pageCount := by
  simp only [clampPage]
  split <;> split <;> omega

theorem clampPage_of_in_bounds (pageCount page : Int) (h1 : 1 ≤ page) (h2 : page ≤ pageCount) :
    clampPage pageCount page = page := by
  simp only [clampPage]
  split <;> split <;> omega

theorem convertEntry_ok_page (pageCount pageOffset : Int) (entry : Json)
    (r : Json × Json × Int) (h : convertEntry pageCount pageOffset entry = Except.ok r) :
    ∃ p, r.2.2 = clampPage pageCount (p + pageOffset) := by
  cases entry with
  | obj members =>
    rw [convertEntry] at h
    split at h
    · exact ⟨_, by injection h with h'; rw [← h']⟩
    · cases h
  | null => cases h
  | bool b => cases h
  | num n => cases h
  | str s => cases h
  | arr elems => cases h

theorem buildFitzToc_cons (pageCount pageOffset : Int) (e : Json) (rest : List Json) :
    buildFitzToc pageCount pageOffset (e :: rest) =
      match convertEntry pageCount pageOffset e with
      | Except.ok item =>
        match buildFitzToc pageCount pageOffset rest with
        | Except.ok items => Except.ok (item :: items)
        | Except.error msg => Except.error msg
      | Except.error msg => Except.error msg := rfl

/-! ## C1, C2, C9 -/

/-- C1: every item of the list `write_toc` builds and commits via `set_toc`
has its page within `[1, page_count]`, for any entry list and any integer
offset (whenever the build completes, on a document with at least one
page). -/
theorem write_toc_clamp_invariant (pageCount pageOffset : Int) (toc : List Json)
    (items : List (Json × Json × Int)) (hpc : 1 ≤ pageCount)
    (h : buildFitzToc pageCount pageOffset toc = Except.ok items) :
    ∀ item ∈ items, 1 ≤ item.2.2 ∧ item.2.2 ≤ pageCount := by
  induction toc generalizing items with
  | nil =>
    cases h
    intro item hitem
    cases hitem
  | cons e rest ih =>
    rw [buildFitzToc_cons] at h
    split at h
    · rename_i item hconv
      split at h
      · rename_i items' hrest
        cases h
        intro x hx
        rcases List.mem_cons.mp hx with hx | hx
        · obtain ⟨p, hp⟩ := convertEntry_ok_page _ _ _ _ hconv
          rw [hx, hp]
          exact clampPage_bounds _ _ hpc
        · exact ih items' hrest x hx
      · cases h
    · cases h

/-- C1 witness: one entry with `page = 500` against a 50-page document with
offset 0 is emitted as `[1, "", 50]`, and every emitted page lies in
`[1, 50]`. -/
theorem write_toc_clamp_invariant_witness :
    buildFitzToc 50 0 [Json.obj [("page", Json.num 500)]] =
      Except.ok [(Json.num 1, Json.str "", (50 : Int))] ∧
    ∀ item ∈ [((Json.num 1 : Json), (Json.str "" : Json), (50 : Int))],
      1 ≤ item.2.2 ∧ item.2.2 ≤ (50 : Int) :=
  ⟨rfl, write_toc_clamp_invariant 50 0 [Json.obj [("page", Json.num 500)]] _ (by decide) rfl⟩

/-- C2: an entry whose adjusted page `page + page_offset` already lies in
`[1, page_count]` is emitted exactly as `[level, title, page + offset]`,
in input order; with offset 0 and all pages in bounds this is the identity
on page values. -/
theorem write_toc_in_bounds_exact (pageCount pageOffset : Int) (toc : List Json)
    (h : ∀ e ∈ toc, ∃ members p, e = Json.obj members ∧
        lookupKey members "page" = some (Json.num p) ∧
        1 ≤ p + pageOffset ∧ p + pageOffset ≤ pageCount) :
    buildFitzToc pageCount pageOffset toc = Except.ok (toc.map (emitUnclamped pageOffset)) := by
  induction toc with
  | nil => rfl
  | cons e rest ih =>
    obtain ⟨members, p, he, hpage, h1, h2⟩ := h e (List.mem_cons_self e rest)
    subst he
    have hconv : convertEntry pageCount pageOffset (Json.obj members) =
        Except.ok (emitUnclamped pageOffset (Json.obj members)) := by
      simp only [convertEntry, emitUnclamped, rawPage, hpage, Option.getD_some, pageToInt,
        clampPage_of_in_bounds _ _ h1 h2]
    rw [buildFitzToc_cons, hconv, ih (fun x hx => h x (List.mem_cons_of_mem _ hx))]
    rfl

/-- C2 witness: the two-entry scenario — pages 5 and 12, offset 14,
page count 200 — is emitted as `[[1, "Ch1", 19], [1, "Ch2", 26]]`. -/
theorem write_toc_in_bounds_exact_witness :
    buildFitzToc 200 14
      [Json.obj [("title", Json.str "Ch1"), ("page", Json.num 5), ("level", Json.num 1)],
       Json.obj [("title", Json.str "Ch2"), ("page", Json.num 12), ("level", Json.num 1)]] =
      Except.ok [(Json.num 1, Json.str "Ch1", (19 : Int)),
                 (Json.num 1, Json.str "Ch2", (26 : Int))] :=
  write_toc_in_bounds_exact 200 14
    [Json.obj [("title", Json.str "Ch1"), ("page", Json.num 5), ("level", Json.num 1)],
     Json.obj [("title", Json.str "Ch2"), ("page", Json.num 12), ("level", Json.num 1)]]
    (by
      intro e he
      rcases List.mem_cons.mp he with h | h
      · exact ⟨_, 5, h, rfl, by decide, by decide⟩
      · rcases List.mem_cons.mp h with h | h
        · exact ⟨_, 12, h, rfl, by decide, by decide⟩
        · cases h)

/-- C9: the empty entry list is a valid no-op write — `write_toc` commits
the empty list via `set_toc`, clearing any prior TOC (the result document's
tree is `[]` whatever `doc.toc` was), and the save step completes without
error. -/
theorem write_toc_empty_noop (doc : Doc) (pageOffset : Int) :
    write_toc doc [] pageOffset = Except.ok ⟨doc.pageCount, []⟩ := rfl

/-! ## Lemmas about the shape normalization -/

theorem lookupKey_mem (members : List (String × Json)) (key : String) (v : Json)
    (h : lookupKey members key = some v) : (key, v) ∈ members := by
  induction members with
  | nil => cases h
  | cons kv rest ih =>
    obtain ⟨k, w⟩ := kv
    rw [lookupKey] at h
    split at h
    · rename_i hk
      injection h with h'
      subst h'
      subst hk
      exact List.mem_cons_self _ _
    · exact List.mem_cons_of_mem _ (ih h)

theorem tryRecognizedKeys_some (keys : List String) (members : List (String × Json))
    (xs : List Json) (h : tryRecognizedKeys keys members = some xs) :
    ∃ key, lookupKey members key = some (Json.arr xs) := by
  induction keys with
  | nil => cases h
  | cons key rest ih =>
    rw [tryRecognizedKeys] at h
    split at h
    · rename_i ys hy
      injection h with h'
      subst h'
      exact ⟨key, hy⟩
    · exact ih h

theorem tryRecognizedKeys_eq_none (keys : List String) (members : List (String × Json))
    (h : ∀ key ∈ keys, ∀ v, lookupKey members key = some v → isArr v = false) :
    tryRecognizedKeys keys members = none := by
  induction keys with
  | nil => rfl
  | cons key rest ih =>
    have hrest := ih (fun k hk => h k (List.mem_cons_of_mem _ hk))
    rw [tryRecognizedKeys]
    cases hv : lookupKey members key with
    | none => exact hrest
    | some v =>
      have harr : isArr v = false := h key (List.mem_cons_self _ _) v hv
      cases v with
      | arr elems => simp [isArr] at harr
      | null => exact hrest
      | bool b => exact hrest
      | num n => exact hrest
      | str s => exact hrest
      | obj m => exact hrest

theorem firstListValue_some (members : List (String × Json)) (xs : List Json)
    (h : firstListValue members = some xs) : ∃ key, (key, Json.arr xs) ∈ members := by
  induction members with
  | nil => cases h
  | cons kv rest ih =>
    obtain ⟨k, v⟩ := kv
    cases v with
    | arr elems =>
      injection h with h'
      subst h'
      exact ⟨k, List.mem_cons_self _ _⟩
    | null => obtain ⟨key, hk⟩ := ih h; exact ⟨key, List.mem_cons_of_mem _ hk⟩
    | bool b => obtain ⟨key, hk⟩ := ih h; exact ⟨key, List.mem_cons_of_mem _ hk⟩
    | num n => obtain ⟨key, hk⟩ := ih h; exact ⟨key, List.mem_cons_of_mem _ hk⟩
    | str s => obtain ⟨key, hk⟩ := ih h; exact ⟨key, List.mem_cons_of_mem _ hk⟩
    | obj m => obtain ⟨key, hk⟩ := ih h; exact ⟨key, List.mem_cons_of_mem _ hk⟩

theorem firstListValue_none (members : List (String × Json))
    (h : firstListValue members = none) : ∀ kv ∈ members, isArr kv.2 = false := by
  induction members with
  | nil => exact fun kv hkv => absurd hkv (List.not_mem_nil kv)
  | cons kv rest ih =>
    obtain ⟨k, v⟩ := kv
    intro x hx
    rcases List.mem_cons.mp hx with hmem | hmem
    · subst hmem
      cases v with
      | arr elems => cases h
      | null => rfl
      | bool b => rfl
      | num n => rfl
      | str s => rfl
      | obj m => rfl
    · clear hx
      cases v with
      | arr elems => cases h
      | null => exact ih h x hmem
      | bool b => exact ih h x hmem
      | num n => exact ih h x hmem
      | str s => exact ih h x hmem
      | obj m => exact ih h x hmem

theorem firstListValue_eq_none (members : List (String × Json))
    (h : ∀ kv ∈ members, isArr kv.2 = false) : firstListValue members = none := by
  induction members with
  | nil => rfl
  | cons kv rest ih =>
    obtain ⟨k, v⟩ := kv
    have h0 : isArr v = false := h _ (List.mem_cons_self _ _)
    have hrest := ih (fun x hx => h x (List.mem_cons_of_mem _ hx))
    cases v with
    | arr elems => simp [isArr] at h0
    | null => exact hrest
    | bool b => exact hrest
    | num n => exact hrest
    | str s => exact hrest
    | obj m => exact hrest

theorem firstListValue_append (pre post : List (String × Json)) (key : String)
    (xs : List Json) (hpre : ∀ kv ∈ pre, isArr kv.2 = false) :
    firstListValue (pre ++ (key, Json.arr xs) :: post) = some xs := by
  induction pre with
  | nil => rfl
  | cons kv rest ih =>
    obtain ⟨k, v⟩ := kv
    have h0 : isArr v = false := hpre _ (List.mem_cons_self _ _)
    have hrest := ih (fun x hx => hpre x (List.mem_cons_of_mem _ hx))
    cases v with
    | arr elems => simp [isArr] at h0
    | null => exact hrest
    | bool b => exact hrest
    | num n => exact hrest
    | str s => exact hrest
    | obj m => exact hrest

/-! ## C3, C4, C5, C8 -/

/-- C3: a bare JSON array `L`, the object with key `"toc"` mapping to `L`,
and any object whose list-valued members all carry `L` (in particular an
object whose only list-valued member is `L`, whatever its key) normalize to
the same entry list `L`. -/
theorem extractor_shape_equivalence (L : List Json) :
    normalizeResponse (Json.arr L) = some L ∧
    normalizeResponse (Json.obj [("toc", Json.arr L)]) = some L ∧
    ∀ members : List (String × Json),
      (∃ key, (key, Json.arr L) ∈ members) →
      (∀ kv ∈ members, isArr kv.2 = true → kv.2 = Json.arr L) →
      normalizeResponse (Json.obj members) = some L := by
  refine ⟨rfl, rfl, ?_⟩
  intro members hex honly
  rw [normalizeResponse]
  cases htry : tryRecognizedKeys recognizedKeys members with
  | some xs =>
    obtain ⟨key, hkey⟩ := tryRecognizedKeys_some _ _ _ htry
    have harr := honly _ (lookupKey_mem _ _ _ hkey) rfl
    injection harr with h'
    rw [h']
  | none =>
    show firstListValue members = some L
    cases hfl : firstListValue members with
    | some ys =>
      obtain ⟨key, hkey⟩ := firstListValue_some _ _ hfl
      have harr := honly _ hkey rfl
      injection harr with h'
      rw [h']
    | none =>
      obtain ⟨key, hkey⟩ := hex
      have := firstListValue_none _ hfl _ hkey
      simp [isArr] at this

/-- C3 witness: `\x7b"table_of_contents": [entry A]\x7d` yields exactly the one
entry titled "A". -/
theorem extractor_shape_equivalence_witness :
    normalizeResponse (Json.obj [("table_of_contents",
        Json.arr [Json.obj [("title", Json.str "A"), ("page", Json.num 1),
          ("level", Json.num 1)]])]) =
      some [Json.obj [("title", Json.str "A"), ("page", Json.num 1),
        ("level", Json.num 1)]] :=
  (extractor_shape_equivalence
      [Json.obj [("title", Json.str "A"), ("page", Json.num 1), ("level", Json.num 1)]]).2.2
    _ ⟨"table_of_contents", List.mem_cons_self _ _⟩
    (by
      intro kv hkv _
      have h' := List.mem_singleton.mp hkv
      subst h'
      rfl)

/-- C4 counterexample: the extractor does not coerce surviving objects —
the model response `[\x7b"page": 3\x7d]` is returned with its entry still
missing both `level` and `title`, so no defaulting to `1` / `""` happened
before the extractor returned (the defaults are applied later, by
`write_toc`). -/
theorem extractor_coercion_counterexample :
    extractFromResponse (some "ok")
        (ParseOutcome.parsed (Json.arr [Json.obj [("page", Json.num 3)]])) =
      some [Json.obj [("page", Json.num 3)]] ∧
    lookupKey [("page", Json.num 3)] "level" = none ∧
    lookupKey [("page", Json.num 3)] "title" = none :=
  ⟨rfl, rfl, rfl⟩

/-- C4 amended: the extractor passes surviving objects through unmodified
(a bare array normalizes to itself); the defaulting — missing `level` → 1,
missing `title` → `""`, missing `page` → 1 — is applied by `write_toc`
when it emits the tree item, with no further validation, and a present
`level` is passed through unmodified. -/
theorem writer_applies_entry_defaults (pageCount pageOffset : Int)
    (members : List (String × Json)) (r : Json × Json × Int)
    (h : convertEntry pageCount pageOffset (Json.obj members) = Except.ok r) :
    (∀ L, normalizeResponse (Json.arr L) = some L) ∧
    (lookupKey members "level" = none → r.1 = Json.num 1) ∧
    (lookupKey members "title" = none → r.2.1 = Json.str "") ∧
    (lookupKey members "page" = none → r.2.2 = clampPage pageCount (1 + pageOffset)) ∧
    (∀ v, lookupKey members "level" = some v → r.1 = v) := by
  rw [convertEntry] at h
  split at h
  · rename_i p heq
    injection h with h'
    subst h'
    refine ⟨fun L => rfl, ?_, ?_, ?_, ?_⟩
    · intro hl
      simp [levelOf, hl]
    · intro ht
      simp [titleOf, ht]
    · intro hp
      have hraw : rawPage members = Json.num 1 := by simp [rawPage, hp]
      rw [hraw] at heq
      simp only [pageToInt, Option.some.injEq] at heq
      simp [heq]
    · intro v hv
      simp [levelOf, hv]
  · cases h

/-- C4 amended witness: an entry with no `level`, `title` or `page` member
is emitted by `write_toc` as `[1, "", clamp(1 + offset)]`. -/
theorem writer_applies_entry_defaults_witness :
    (∀ L, normalizeResponse (Json.arr L) = some L) ∧
    (lookupKey ([] : List (String × Json)) "level" = none → (Json.num 1 : Json) = Json.num 1) ∧
    (lookupKey ([] : List (String × Json)) "title" = none → (Json.str "" : Json) = Json.str "") ∧
    (lookupKey ([] : List (String × Json)) "page" = none → (1 : Int) = clampPage 10 (1 + 0)) ∧
    (∀ v, lookupKey ([] : List (String × Json)) "level" = some v → (Json.num 1 : Json) = v) :=
  writer_applies_entry_defaults 10 0 [] (Json.num 1, Json.str "", 1) rfl

/-- A JSON value matching none of the recognized response shapes: not a
list, and if an object then with no list-valued member. -/
def noListShape : Json → Bool
  | Json.arr _ => false
  | Json.obj members => members.all (fun kv => !(isArr kv.2))
  | _ => true

theorem normalizeResponse_eq_none (data : Json) (h : noListShape data = true) :
    normalizeResponse data = none := by
  cases data with
  | arr elems => cases h
  | obj members =>
    have hall : ∀ kv ∈ members, isArr kv.2 = false := by
      intro kv hkv
      have := List.all_eq_true.mp h kv hkv
      simpa using this
    rw [normalizeResponse,
      tryRecognizedKeys_eq_none _ _ (fun key _ v hv => hall _ (lookupKey_mem _ _ _ hv))]
    exact firstListValue_eq_none _ hall
  | null => rfl
  | bool b => rfl
  | num n => rfl
  | str s => rfl

/-- C5: an empty response body, a body that fails JSON parsing, and a
parsed value matching no recognized shape (not a list; a dict with no
list-valued member) all make the extractor return the empty result
(`None`), never an exception: `extractFromResponse` is total and returns
`none` in every such case. -/
theorem extractor_degrades_to_empty (content : Option String) (outcome : ParseOutcome)
    (h : content = none ∨ content = some "" ∨ outcome = ParseOutcome.invalid ∨
        ∃ data, outcome = ParseOutcome.parsed data ∧ noListShape data = true) :
    extractFromResponse content outcome = none := by
  rcases h with h | h | h | ⟨data, hout, hshape⟩
  · rw [h]; rfl
  · rw [h]; rfl
  · subst h
    cases content with
    | none => rfl
    | some s => simp [extractFromResponse]
  · subst hout
    cases content with
    | none => rfl
    | some s =>
      simp [extractFromResponse, normalizeResponse_eq_none data hshape]

/-- C5 witness: a prose (non-JSON) body yields the empty result. -/
theorem extractor_degrades_to_empty_witness :
    extractFromResponse (some "The page shows no table of contents.")
      ParseOutcome.invalid = none :=
  extractor_degrades_to_empty _ _ (Or.inr (Or.inr (Or.inl rfl)))

/-- `data[key]` is either absent or not a list (the condition under which
the recognized-key probe passes over `key`). -/
def noArrValue : Option Json → Bool
  | some v => !(isArr v)
  | none => true

/-- C8: when no recognized key maps to a list, the fallback returns the
first list-valued member in member order — even when later list-valued
members exist (`post` is unconstrained). -/
theorem fallback_first_match (members pre post : List (String × Json)) (key : String)
    (xs : List Json)
    (hsplit : members = pre ++ (key, Json.arr xs) :: post)
    (hpre : ∀ kv ∈ pre, isArr kv.2 = false)
    (hrec : ∀ k ∈ recognizedKeys, noArrValue (lookupKey members k) = true) :
    normalizeResponse (Json.obj members) = some xs := by
  have htry : tryRecognizedKeys recognizedKeys members = none := by
    apply tryRecognizedKeys_eq_none
    intro k hk v hv
    have hnv := hrec k hk
    rw [hv] at hnv
    simpa [noArrValue] using hnv
  rw [normalizeResponse, htry, hsplit]
  exact firstListValue_append _ _ _ _ hpre

/-- C8 witness: `\x7b"a": 1, "b": ["x"], "c": ["y"]\x7d` has two list-valued
members and no recognized key; the first one, under `"b"`, is returned. -/
theorem fallback_first_match_witness :
    normalizeResponse (Json.obj [("a", Json.num 1), ("b", Json.arr [Json.str "x"]),
      ("c", Json.arr [Json.str "y"])]) = some [Json.str "x"] :=
  fallback_first_match _ [("a", Json.num 1)] [("c", Json.arr [Json.str "y"])] "b"
    [Json.str "x"] rfl
    (by
      intro kv hkv
      have h' := List.mem_singleton.mp hkv
      subst h'
      rfl)
    (by decide)

/-- Whether a `write_toc` loop iteration raises on an entry: a non-mapping
entry has no `.get` (`AttributeError`), and a present `page` value that is
not addable to an `int` (e.g. `null` or a string) raises `TypeError`. -/
def entryRaises (entry : Json) : Bool :=
  match entry with
  | Json.obj members =>
    match pageToInt (rawPage members) with
    | some _ => false
    | none => true
  | _ => true

/-! ## Lemmas about the page loop and the failing-entry behavior -/

theorem accumulateEntries_foldl (results : List (Option (List Json))) (acc : List Json) :
    results.foldl
      (fun acc r =>
        match r with
        | some entries => if entries.isEmpty then acc else acc ++ entries
        | none => acc)
      acc = acc ++ (results.map (fun r => r.getD [])).flatten := by
  induction results generalizing acc with
  | nil => simp
  | cons r rest ih =>
    rw [List.foldl_cons, ih]
    cases r with
    | none => simp
    | some entries => cases entries <;> simp

theorem accumulateEntries_eq_join (results : List (Option (List Json))) :
    accumulateEntries results = (results.map (fun r => r.getD [])).flatten := by
  rw [accumulateEntries]
  simpa using accumulateEntries_foldl results []

theorem convertEntry_error_of_raises (pageCount pageOffset : Int) (entry : Json)
    (h : entryRaises entry = true) :
    ∃ msg, convertEntry pageCount pageOffset entry = Except.error msg := by
  cases entry with
  | obj members =>
    rw [convertEntry]
    cases hp : pageToInt (rawPage members) with
    | some p =>
      rw [entryRaises, hp] at h
      simp at h
    | none => exact ⟨_, rfl⟩
  | null => exact ⟨_, rfl⟩
  | bool b => exact ⟨_, rfl⟩
  | num n => exact ⟨_, rfl⟩
  | str s => exact ⟨_, rfl⟩
  | arr elems => exact ⟨_, rfl⟩

/-! ## C6, C7, C10 -/

/-- C6: the final batch is the concatenation of the per-page entry lists in
page-processing order (entries from page N precede those of page N+1, a
`None` or empty page contributing nothing), and `write_toc` emits exactly
one item per input entry at the same position — no reordering, no
re-sorting, no deduplication. -/
theorem order_preservation (results : List (Option (List Json)))
    (pageCount pageOffset : Int) (toc : List Json) (items : List (Json × Json × Int))
    (h : buildFitzToc pageCount pageOffset toc = Except.ok items) :
    accumulateEntries results = (results.map (fun r => r.getD [])).flatten ∧
    items.length = toc.length ∧
    ∀ i (hi : i < toc.length) (hi' : i < items.length),
      convertEntry pageCount pageOffset (toc.get ⟨i, hi⟩) =
        Except.ok (items.get ⟨i, hi'⟩) := by
  refine ⟨accumulateEntries_eq_join results, ?_⟩
  induction toc generalizing items with
  | nil =>
    cases h
    exact ⟨rfl, fun i hi _ => absurd hi (Nat.not_lt_zero i)⟩
  | cons e rest ih =>
    rw [buildFitzToc_cons] at h
    split at h
    · rename_i item hconv
      split at h
      · rename_i items' hrest
        cases h
        obtain ⟨hlen, hpt⟩ := ih items' hrest
        refine ⟨by rw [List.length_cons, List.length_cons, hlen], ?_⟩
        intro i hi hi'
        cases i with
        | zero => exact hconv
        | succ n => exact hpt n (Nat.lt_of_succ_lt_succ hi) (Nat.lt_of_succ_lt_succ hi')
      · cases h
    · cases h

/-- C6 witness: a four-page run (two entries, a failed page, an empty page,
one entry) accumulates in page order, and a one-entry `write_toc` build
emits its item at the same index. -/
theorem order_preservation_witness :
    accumulateEntries
        [some [Json.str "p1a", Json.str "p1b"], none, some [], some [Json.str "p3"]] =
      ([[Json.str "p1a", Json.str "p1b"], [], [], [Json.str "p3"]] : List (List Json)).flatten ∧
    ([((Json.num 1 : Json), (Json.str "" : Json), (2 : Int))].length =
      [Json.obj [("page", Json.num 2)]].length) ∧
    ∀ i (hi : i < [Json.obj [("page", Json.num 2)]].length)
      (hi' : i < [((Json.num 1 : Json), (Json.str "" : Json), (2 : Int))].length),
      convertEntry 10 0 ([Json.obj [("page", Json.num 2)]].get ⟨i, hi⟩) =
        Except.ok ([((Json.num 1 : Json), (Json.str "" : Json), (2 : Int))].get ⟨i, hi'⟩) :=
  order_preservation
    [some [Json.str "p1a", Json.str "p1b"], none, some [], some [Json.str "p3"]]
    10 0 [Json.obj [("page", Json.num 2)]] [(Json.num 1, Json.str "", 2)] rfl

/-- C7: when every processed page yields zero entries (`None` or `[]`), the
accumulated batch is empty, the run takes the "No bookmarks were
extracted" branch, and the document comes back unmodified — `write_toc`
and `set_toc` are never invoked. -/
theorem empty_batch_leaves_doc_unmodified (results : List (Option (List Json)))
    (doc : Doc) (pageOffset : Int)
    (h : ∀ r ∈ results, r = none ∨ r = some []) :
    accumulateEntries results = [] ∧
    finishRun doc (accumulateEntries results) pageOffset =
      Except.ok (RunResult.nothingExtracted doc) := by
  have hjoin : ∀ rs : List (Option (List Json)), (∀ r ∈ rs, r = none ∨ r = some []) →
      ((rs.map (fun r => r.getD [])).flatten : List Json) = [] := by
    intro rs
    induction rs with
    | nil => exact fun _ => rfl
    | cons r rest ih =>
      intro hrs
      have hr := hrs r (List.mem_cons_self _ _)
      have htail := ih (fun x hx => hrs x (List.mem_cons_of_mem _ hx))
      rcases hr with hr | hr <;> subst hr <;> simpa using htail
  have hempty : accumulateEntries results = [] := by
    rw [accumulateEntries_eq_join]
    exact hjoin results h
  refine ⟨hempty, ?_⟩
  rw [hempty]
  rfl

/-- C7 witness: a failed page and an empty page leave a document with a
prior TOC untouched. -/
theorem empty_batch_leaves_doc_unmodified_witness :
    accumulateEntries [none, some []] = [] ∧
    finishRun ⟨7, [(Json.num 1, Json.str "old", 3)]⟩ (accumulateEntries [none, some []]) 0 =
      Except.ok (RunResult.nothingExtracted ⟨7, [(Json.num 1, Json.str "old", 3)]⟩) :=
  empty_batch_leaves_doc_unmodified [none, some []] ⟨7, [(Json.num 1, Json.str "old", 3)]⟩ 0
    (by intro r hr; simpa using hr)

/-- C10: `write_toc` is not total on the shapes the extractor passes
through unvalidated — an entry list containing a non-mapping element, or
an entry whose `page` is `null` or a string, makes `write_toc` raise
(`AttributeError` / `TypeError`) instead of clamping, skipping or
degrading. -/
theorem write_toc_raises_on_malformed (doc : Doc) (pageOffset : Int) (toc : List Json)
    (e : Json) (he : e ∈ toc) (hbad : entryRaises e = true) :
    ∃ msg, write_toc doc toc pageOffset = Except.error msg := by
  have hbuild : ∃ msg, buildFitzToc doc.pageCount pageOffset toc = Except.error msg := by
    induction toc with
    | nil => cases he
    | cons x rest ih =>
      rcases List.mem_cons.mp he with hmem | hmem
      · obtain ⟨msg, hmsg⟩ := convertEntry_error_of_raises doc.pageCount pageOffset e hbad
        refine ⟨msg, ?_⟩
        rw [buildFitzToc_cons, ← hmem, hmsg]
      · obtain ⟨msg, hmsg⟩ := ih hmem
        cases hc : convertEntry doc.pageCount pageOffset x with
        | error m => exact ⟨m, by rw [buildFitzToc_cons, hc]⟩
        | ok item => exact ⟨msg, by rw [buildFitzToc_cons, hc, hmsg]⟩
  obtain ⟨msg, hmsg⟩ := hbuild
  exact ⟨msg, by rw [write_toc, hmsg]⟩

/-- C10 witness: a single entry whose `page` is JSON `null` makes
`write_toc` raise. -/
theorem write_toc_raises_on_malformed_witness :
    ∃ msg, write_toc ⟨5, []⟩ [Json.obj [("page", Json.null)]] 0 = Except.error msg :=
  write_toc_raises_on_malformed ⟨5, []⟩ 0 [Json.obj [("page", Json.null)]]
    (Json.obj [("page", Json.null)]) (List.mem_cons_self _ _) rfl

end AutoPdfMarker
